import Mathlib

/-!
Verification of the dependency-merger program (`gradio_app.py`).

The program parses two `requirements.txt`-style manifest texts into
package → specifier-set maps, merges the specifier sets per package,
selects a concrete version for each package against a catalog of
available versions (PyPI in production, modelled here as an injected
lookup function), and aggregates the per-package outcomes into a report
together with an `all_resolved` flag and, when everything resolved, a
merged manifest text.

Versions are modelled as their PEP 440 release segments (a list of
naturals, e.g. "2.9.0" ↦ [2, 9, 0]); comparison pads the shorter list
with zeros, which is exactly `packaging.version` comparison restricted
to release-only versions (the only kind exercised by the program's
specification).  Specifier sets are modelled as lists of
(operator, version) clauses; `packaging`'s `SpecifierSet.__and__` is the
union of the two clause sets and its truthiness is "has at least one
clause".  All string processing is done on `List Char` so that every
definition is structurally recursive and evaluates by `decide`/`rfl`.
-/

/-! ### Version comparison (release segments, zero-padded) -/

/-- Compare a release-segment list against the empty (all-zero) tail:
`.gt` if some segment is positive, `.eq` if all segments are zero. -/
def verCmpNil : List Nat → Ordering
  | [] => .eq
  | a :: as => if 0 < a then .gt else verCmpNil as

/-- PEP 440 release comparison: lexicographic on segments, the shorter
list padded with zeros (so [1] and [1,0] compare equal). -/
def verCmp : List Nat → List Nat → Ordering
  | [], bs => (verCmpNil bs).swap
  | a :: as, [] => verCmpNil (a :: as)
  | a :: as, b :: bs => if a < b then .lt else if b < a then .gt else verCmp as bs

theorem verCmpNil_ne_lt : ∀ a : List Nat, verCmpNil a ≠ .lt := by
  intro a
  induction a with
  | nil => simp [verCmpNil]
  | cons x xs ih =>
    simp only [verCmpNil]
    split <;> simp [ih]

theorem verCmp_refl : ∀ a : List Nat, verCmp a a = .eq := by
  intro a
  induction a with
  | nil => rfl
  | cons x xs ih => simp [verCmp, ih]

theorem verCmp_swap : ∀ a b : List Nat, verCmp a b = (verCmp b a).swap := by
  intro a
  induction a with
  | nil =>
    intro b
    cases b with
    | nil => rfl
    | cons y ys => simp [verCmp, Ordering.swap_swap]
  | cons x xs ih =>
    intro b
    cases b with
    | nil => simp [verCmp, Ordering.swap_swap]
    | cons y ys =>
      simp only [verCmp]
      rcases lt_trichotomy x y with h | h | h
      · simp [h, not_lt.mpr h.le, Ordering.swap]
      · simp [h, lt_irrefl, ih ys]
      · simp [h, not_lt.mpr h.le, Ordering.swap]

/-- `a` is all zeros iff it compares `.eq` with the empty list. -/
theorem verCmpNil_eq_iff : ∀ a : List Nat, verCmpNil a = .eq ↔ ∀ x ∈ a, x = 0 := by
  intro a
  induction a with
  | nil => simp [verCmpNil]
  | cons x xs ih =>
    simp only [verCmpNil, List.mem_cons]
    constructor
    · intro h
      split at h
      · exact absurd h (by simp)
      · intro y hy
        rcases hy with rfl | hy
        · omega
        · exact (ih.mp h) y hy
    · intro h
      have hx : x = 0 := h x (Or.inl rfl)
      simp [hx, ih.mpr fun y hy => h y (Or.inr hy)]

theorem verCmpNil_ne_gt_iff (a : List Nat) : verCmpNil a ≠ .gt ↔ ∀ x ∈ a, x = 0 := by
  constructor
  · intro h
    have := verCmpNil_ne_lt a
    rcases h3 : verCmpNil a with _ | _ | _
    · exact absurd h3 this
    · exact (verCmpNil_eq_iff a).mp h3
    · exact absurd h3 h
  · intro h
    rw [(verCmpNil_eq_iff a).mpr h]
    simp

/-- A list of zeros compares with any `c` the way the empty list does. -/
theorem verCmp_allZero_left : ∀ a : List Nat, (∀ x ∈ a, x = 0) →
    ∀ c : List Nat, verCmp a c = (verCmpNil c).swap := by
  intro a
  induction a with
  | nil => intro _ c; rfl
  | cons x xs ih =>
    intro h c
    have hx : x = 0 := h x (by simp)
    have hxs : ∀ y ∈ xs, y = 0 := fun y hy => h y (by simp [hy])
    cases c with
    | nil =>
      simp only [verCmp, verCmpNil, hx]
      rw [(verCmpNil_eq_iff xs).mpr hxs]
      simp [Ordering.swap]
    | cons y ys =>
      simp only [verCmp, verCmpNil, hx]
      rcases Nat.eq_zero_or_pos y with hy | hy
      · simp [hy, ih hxs ys]
      · simp [hy, Nat.not_lt_of_lt hy, Ordering.swap]

theorem verCmp_allZero_right (a c : List Nat) (h : ∀ x ∈ c, x = 0) :
    verCmp a c = verCmpNil a := by
  rw [verCmp_swap, verCmp_allZero_left c h a]
  cases h2 : verCmpNil a <;> simp [Ordering.swap]

/-- `verLe a b`: `a` is at most `b` in release-segment order. -/
def verLe (a b : List Nat) : Prop := verCmp a b ≠ .gt

instance (a b : List Nat) : Decidable (verLe a b) := by
  unfold verLe; infer_instance

theorem verLe_refl (a : List Nat) : verLe a a := by
  simp [verLe, verCmp_refl]

theorem verLe_nil_left (b : List Nat) : verLe [] b := by
  simp only [verLe, verCmp]
  have := verCmpNil_ne_lt b
  cases h : verCmpNil b <;> simp [Ordering.swap] at this ⊢
  exact absurd h this

theorem verLe_nil_right_iff (a : List Nat) : verLe a [] ↔ ∀ x ∈ a, x = 0 := by
  cases a with
  | nil => simp [verLe_nil_left]
  | cons x xs =>
    show verCmpNil (x :: xs) ≠ .gt ↔ _
    exact verCmpNil_ne_gt_iff (x :: xs)

theorem verLe_trans : ∀ a b c : List Nat, verLe a b → verLe b c → verLe a c := by
  intro a
  induction a with
  | nil => intro b c _ _; exact verLe_nil_left c
  | cons x xs ih =>
    intro b c h1 h2
    cases b with
    | nil =>
      -- a ≤ [] forces a to be all zeros, hence a ≤ anything
      have hz : ∀ y ∈ x :: xs, y = 0 := (verLe_nil_right_iff (x :: xs)).mp h1
      show verCmp (x :: xs) c ≠ .gt
      rw [verCmp_allZero_left (x :: xs) hz c]
      have := verCmpNil_ne_lt c
      cases h : verCmpNil c <;> simp [Ordering.swap]
      exact absurd h this
    | cons y ys =>
      cases c with
      | nil =>
        -- b ≤ [] forces b all zeros; then a ≤ b means a ≤ [] as well
        have hz : ∀ v ∈ y :: ys, v = 0 := (verLe_nil_right_iff (y :: ys)).mp h2
        have : verCmp (x :: xs) (y :: ys) = verCmpNil (x :: xs) :=
          verCmp_allZero_right (x :: xs) (y :: ys) hz
        show verCmp (x :: xs) [] ≠ .gt
        show verCmpNil (x :: xs) ≠ .gt
        rw [← this]
        exact h1
      | cons z zs =>
        simp only [verLe, verCmp] at h1 h2 ⊢
        rcases lt_trichotomy x y with hxy | hxy | hxy
        · -- x < y ≤ z : strictly smaller head
          rcases lt_trichotomy y z with hyz | hyz | hyz
          · simp [show x < z by omega]
          · subst hyz; simp [hxy]
          · simp [hyz, not_lt.mpr hyz.le] at h2
        · subst hxy
          simp [lt_irrefl] at h1
          rcases lt_trichotomy x z with hyz | hyz | hyz
          · simp [hyz]
          · subst hyz
            simp [lt_irrefl] at h2 ⊢
            exact ih ys zs h1 h2
          · simp [hyz, not_lt.mpr hyz.le] at h2
        · simp [hxy, not_lt.mpr hxy.le] at h1

theorem verLe_total (a b : List Nat) : verLe a b ∨ verLe b a := by
  by_cases h : verCmp a b = .gt
  · right
    show verCmp b a ≠ .gt
    rw [verCmp_swap] at h
    cases h2 : verCmp b a <;> simp [h2, Ordering.swap] at h ⊢
  · left; exact h

theorem verCmp_eq_iff_le_le (a b : List Nat) :
    verCmp a b = .eq ↔ verLe a b ∧ verLe b a := by
  constructor
  · intro h
    refine ⟨by simp [verLe, h], ?_⟩
    show verCmp b a ≠ .gt
    rw [verCmp_swap, h]
    simp [Ordering.swap]
  · rintro ⟨h1, h2⟩
    simp only [verLe] at h1 h2
    rw [verCmp_swap b a] at h2
    cases h : verCmp a b <;> rw [h] at h1 h2 <;> simp [Ordering.swap] at h1 h2 ⊢

/-- Two versions both `.eq`-comparing with `v` compare `.eq` with each other. -/
theorem verCmp_eq_euclidean {v c1 c2 : List Nat}
    (h1 : verCmp v c1 = .eq) (h2 : verCmp v c2 = .eq) : verCmp c1 c2 = .eq := by
  obtain ⟨ha1, hb1⟩ := (verCmp_eq_iff_le_le v c1).mp h1
  obtain ⟨ha2, hb2⟩ := (verCmp_eq_iff_le_le v c2).mp h2
  exact (verCmp_eq_iff_le_le c1 c2).mpr
    ⟨verLe_trans c1 v c2 hb1 ha2, verLe_trans c2 v c1 hb2 ha1⟩

/-! ### Versions, operators, specifier clauses -/

/-- A package version: its PEP 440 release segments. -/
structure Ver where
  segs : List Nat
deriving DecidableEq, Repr

/-- The comparison operators of `packaging.specifiers` that the program's
data model recognises (§3 of the design: equal, not-equal, less-than,
less-or-equal, greater-than, greater-or-equal, compatible-release). -/
inductive Op where
  | eq | ne | lt | le | gt | ge | compat
deriving DecidableEq, Repr

/-- One specifier clause: an operator paired with a version. -/
abbrev Clause := Op × Ver

/-- A specifier set: the conjunction of its clauses.  `packaging` keeps
the clauses of a `SpecifierSet` as a finite set; a list models it, and
`SpecifierSet.__and__` is clause union (here: append). -/
abbrev SpecSet := List Clause

/-- For `~= c`, every release segment of `v` up to the second-to-last
segment of `c` must agree with `c` (PEP 440 `== c[:-1].*`). -/
def prefixMatches (v c : Ver) : Bool :=
  (List.range (c.segs.length - 1)).all fun i => v.segs.getD i 0 == c.segs.getD i 0

/-- Does version `v` satisfy a single clause?  This is
`packaging.specifiers.Specifier.contains` restricted to release-only
versions (where the pre-release special cases of `<` and `>` vanish). -/
def clauseHolds (v : Ver) : Clause → Bool
  | (.eq, c) => verCmp v.segs c.segs == .eq
  | (.ne, c) => verCmp v.segs c.segs != .eq
  | (.lt, c) => verCmp v.segs c.segs == .lt
  | (.le, c) => verCmp v.segs c.segs != .gt
  | (.gt, c) => verCmp v.segs c.segs == .gt
  | (.ge, c) => verCmp v.segs c.segs != .lt
  | (.compat, c) => (verCmp v.segs c.segs != .lt) && prefixMatches v c

/-- `str(ver) in spec_set`: the version must satisfy every clause
(`SpecifierSet.__contains__`; re-parsing `str(ver)` is the identity for
release-only versions). -/
def specSetContains (s : SpecSet) (v : Ver) : Bool := s.all (clauseHolds v)

def opToString : Op → String
  | .ge => ">="
  | .eq => "=="
  | .le => "<="
  | .ne => "!="
  | .gt => ">"
  | .lt => "<"
  | .compat => "~="

/-- `str(Version)`: release segments joined by dots. -/
def verToString (v : Ver) : String :=
  String.intercalate "." (v.segs.map toString)

def clauseToString (c : Clause) : String := opToString c.1 ++ verToString c.2

/-! ### String ordering (Python's code-point lexicographic order) -/

/-- Lexicographic `≤` on character lists by code point — the order
Python's `sorted` uses on strings. -/
def strLeB : List Char → List Char → Bool
  | [], _ => true
  | _ :: _, [] => false
  | a :: as, b :: bs => if a = b then strLeB as bs else decide (a.toNat < b.toNat)

/-- Python's string `≤`. -/
def strLe (a b : String) : Prop := strLeB a.data b.data = true

/-- Python's string `<` (by totality, the complement of `≥`). -/
def strLt (a b : String) : Prop := strLeB b.data a.data = false

instance : DecidableRel strLe := fun a b => by unfold strLe; infer_instance

instance : DecidableRel strLt := fun a b => by unfold strLt; infer_instance

theorem strLeB_total : ∀ a b : List Char, strLeB a b = true ∨ strLeB b a = true := by
  intro a
  induction a with
  | nil => intro b; left; rfl
  | cons x xs ih =>
    intro b
    cases b with
    | nil => right; rfl
    | cons y ys =>
      by_cases hxy : x = y
      · subst hxy
        simpa [strLeB] using ih ys
      · have : x.toNat ≠ y.toNat := fun h =>
          hxy (Char.ext (UInt32.toNat.inj h))
        rcases Nat.lt_or_ge x.toNat y.toNat with h | h
        · left; simp [strLeB, hxy, h]
        · right
          simp [strLeB, Ne.symm hxy]
          omega

theorem strLeB_trans : ∀ a b c : List Char,
    strLeB a b = true → strLeB b c = true → strLeB a c = true := by
  intro a
  induction a with
  | nil => intro b c _ _; rfl
  | cons x xs ih =>
    intro b c h1 h2
    cases b with
    | nil => simp [strLeB] at h1
    | cons y ys =>
      cases c with
      | nil => simp [strLeB] at h2
      | cons z zs =>
        simp only [strLeB] at h1 h2 ⊢
        by_cases hxy : x = y
        · subst hxy
          by_cases hyz : x = z
          · subst hyz
            simp only [if_pos rfl] at h1 h2 ⊢
            exact ih ys zs h1 h2
          · simp only [if_pos rfl] at h1
            simp only [if_neg hyz] at h2 ⊢
            exact h2
        · by_cases hyz : y = z
          · subst hyz
            simp only [if_neg hxy] at h1 ⊢
            exact h1
          · simp only [if_neg hxy] at h1
            simp only [if_neg hyz] at h2
            have hxz : x ≠ z := by
              intro h
              subst h
              simp only [decide_eq_true_eq] at h1 h2
              omega
            simp only [if_neg hxz, decide_eq_true_eq] at *
            omega

theorem strLeB_antisymm : ∀ a b : List Char,
    strLeB a b = true → strLeB b a = true → a = b := by
  intro a
  induction a with
  | nil =>
    intro b _ h2
    cases b with
    | nil => rfl
    | cons y ys => simp [strLeB] at h2
  | cons x xs ih =>
    intro b h1 h2
    cases b with
    | nil => simp [strLeB] at h1
    | cons y ys =>
      by_cases hxy : x = y
      · subst hxy
        simp only [strLeB, if_pos rfl] at h1 h2
        rw [ih ys h1 h2]
      · simp only [strLeB, if_neg hxy, if_neg (Ne.symm hxy), decide_eq_true_eq] at h1 h2
        omega

instance : IsTotal String strLe := ⟨fun a b => strLeB_total a.data b.data⟩

instance : IsTrans String strLe := ⟨fun a b c => strLeB_trans a.data b.data c.data⟩

theorem strLe_antisymm {a b : String} (h1 : strLe a b) (h2 : strLe b a) : a = b := by
  cases a with
  | mk da =>
    cases b with
    | mk db =>
      have := strLeB_antisymm da db h1 h2
      simp_all

/-- `str(SpecifierSet)`: the clause strings, sorted, joined by commas. -/
def specSetToString (s : SpecSet) : String :=
  String.intercalate "," (List.insertionSort strLe (s.map clauseToString))

/-! ### Character-level helpers (Python `str.strip`, `str.split`, …) -/

def isWsChar (c : Char) : Bool := c == ' ' || c == '\t' || c == '\r' || c == '\n'

/-- Python `str.strip()` (for the ASCII whitespace that can occur here). -/
def trimChars (l : List Char) : List Char :=
  ((l.dropWhile isWsChar).reverse.dropWhile isWsChar).reverse

/-- Split a character list on a separator character (Python `str.split(sep)`;
also used for `str.splitlines`, whose extra separators are immaterial
after stripping). -/
def splitOnChar (sep : Char) : List Char → List (List Char)
  | [] => [[]]
  | c :: cs =>
    match splitOnChar sep cs, c == sep with
    | rest, true => [] :: rest
    | [], false => [[c]]
    | r :: rs, false => (c :: r) :: rs

/-- ASCII lower-casing (Python `str.lower`; package names are ASCII). -/
def lowerChar (c : Char) : Char :=
  if 'A' ≤ c ∧ c ≤ 'Z' then Char.ofNat (c.toNat + 32) else c

/-- The character class of the package-name regex `[a-zA-Z0-9_-]`. -/
def nameChar (c : Char) : Bool := c.isAlphanum || c == '_' || c == '-'

def digitsVal (l : List Char) : Nat :=
  l.foldl (fun acc c => acc * 10 + (c.toNat - '0'.toNat)) 0

/-- Parse a version string: non-empty dot-separated numeric segments
(the release-only fragment of the PEP 440 grammar). -/
def parseVerChars (l : List Char) : Option Ver :=
  let pieces := splitOnChar '.' l
  if pieces.all fun p => !p.isEmpty && p.all Char.isDigit then
    some ⟨pieces.map digitsVal⟩
  else none

/-- Recognise a clause's leading operator (longest match first). -/
def parseOpChars : List Char → Option (Op × List Char)
  | '=' :: '=' :: rest => some (.eq, rest)
  | '!' :: '=' :: rest => some (.ne, rest)
  | '<' :: '=' :: rest => some (.le, rest)
  | '>' :: '=' :: rest => some (.ge, rest)
  | '~' :: '=' :: rest => some (.compat, rest)
  | '<' :: rest => some (.lt, rest)
  | '>' :: rest => some (.gt, rest)
  | _ => none

/-- Parse one specifier clause (`packaging.specifiers.Specifier`):
operator, optional whitespace, version; `~=` needs ≥ 2 release segments. -/
def parseClause (piece : List Char) : Option Clause := do
  let (op, rest) ← parseOpChars piece
  let v ← parseVerChars (trimChars rest)
  if op = .compat ∧ v.segs.length < 2 then none else some (op, v)

def parseClauses : List (List Char) → Option (List Clause)
  | [] => some []
  | p :: ps => do
    let c ← parseClause p
    let cs ← parseClauses ps
    some (c :: cs)

/-- `specifiers.SpecifierSet(text)`: split on commas, strip each piece,
drop empty pieces, parse each remaining piece as a clause; any invalid
piece raises `InvalidSpecifier` (modelled as `none`). -/
def parseSpecSet (l : List Char) : Option SpecSet :=
  parseClauses (((splitOnChar ',' l).map trimChars).filter fun p => !p.isEmpty)

/-! ### The manifest dictionary (Python `dict` with string keys) -/

abbrev Dict := List (String × SpecSet)

def dictGet (d : Dict) (k : String) : Option SpecSet :=
  (d.find? fun e => e.1 == k).map Prod.snd

/-- `d[k] = v`: overwrite any existing binding of `k`. -/
def dictInsert (d : Dict) (k : String) (v : SpecSet) : Dict :=
  (k, v) :: d.filter fun e => e.1 != k

def dictKeys (d : Dict) : List String := d.map Prod.fst

/-! ### `parse_requirements` -/

/-- Outcome of one manifest line: skipped (blank, comment, or no package
name extractable), a parsed entry, or a fatal syntax error. -/
inductive LineResult where
  | skip
  | entry (pkg : String) (specSet : SpecSet)
  | err (msg : String)
deriving DecidableEq, Repr

/-- One iteration of the `parse_requirements` loop: strip the line, skip
blanks and `#`-comments, extract the leading `[a-zA-Z0-9_-]+` package
name (no match ⇒ silently skipped), lower-case it, and parse the rest of
the line as a specifier set (empty rest ⇒ unconstrained). -/
def parseReqLine (rawLine : List Char) : LineResult :=
  let line := trimChars rawLine
  match line with
  | [] => .skip
  | c :: _ =>
    if c == '#' then .skip
    else
      let name := line.takeWhile nameChar
      if name.isEmpty then .skip
      else
        let pkg_name := String.mk (name.map lowerChar)
        let spec := trimChars (line.dropWhile nameChar)
        if spec.isEmpty then .entry pkg_name []
        else
          match parseSpecSet spec with
          | some s => .entry pkg_name s
          | none => .err ("Invalid specifier for " ++ pkg_name ++ ": " ++ String.mk spec)

def parseLines : List (List Char) → Dict → Except String Dict
  | [], acc => .ok acc
  | l :: ls, acc =>
    match parseReqLine l with
    | .skip => parseLines ls acc
    | .entry p s => parseLines ls (dictInsert acc p s)
    | .err m => .error m

/-- `parse_requirements`: returns the manifest dict, or the first
invalid-specifier error (the Python function returns the pair
`(None, msg)` on failure and `(dict, None)` on success). -/
def parse_requirements (file_content : String) : Except String Dict :=
  parseLines (splitOnChar '\n' file_content.data) []

/-! ### `merge_specifiers`, the catalog, and `select_version` -/

/-- `merge_specifiers`: `spec1 & spec2` is the union of the two clause
sets; a falsy (clause-less) result is mapped to `None`.  The
`except InvalidSpecifier` branch of the source is unreachable for
`SpecifierSet` arguments (`__and__` only parses string arguments), so it
does not appear here. -/
def merge_specifiers (spec1 spec2 : SpecSet) : Option SpecSet :=
  let merged := spec1 ++ spec2
  if merged.isEmpty then none else some merged

/-- The injected catalog capability: package name ↦ published versions.
`get_available_versions` converts every transport error into `[]`, so an
empty answer is a valid, non-error state. -/
abbrev Catalog := String → List Ver

/-- Descending order on versions (for `sorted(versions, reverse=True)`):
`verDescRel v w` means `w ≤ v`. -/
def verDescRel (v w : Ver) : Prop := verLe w.segs v.segs

/-- Ascending order on versions (for `sorted(versions)`). -/
def verAscRel (v w : Ver) : Prop := verLe v.segs w.segs

instance : DecidableRel verDescRel := fun v w => by unfold verDescRel; infer_instance

instance : DecidableRel verAscRel := fun v w => by unfold verAscRel; infer_instance

instance : IsTotal Ver verDescRel :=
  ⟨fun v w => (verLe_total w.segs v.segs).elim Or.inl Or.inr⟩

instance : IsTotal Ver verAscRel :=
  ⟨fun v w => (verLe_total v.segs w.segs).elim Or.inl Or.inr⟩

instance : IsTrans Ver verDescRel :=
  ⟨fun u v w h1 h2 => verLe_trans w.segs v.segs u.segs h2 h1⟩

instance : IsTrans Ver verAscRel :=
  ⟨fun u v w h1 h2 => verLe_trans u.segs v.segs w.segs h1 h2⟩

/-- `get_available_versions`: the catalog's parsed release list, sorted
descending (on network/format failure the source returns `[]` before
sorting; such failures are modelled by the catalog answering `[]`, and
sorting `[]` is `[]`). -/
def get_available_versions (catalog : Catalog) (package_name : String) : List Ver :=
  List.insertionSort verDescRel (catalog package_name)

/-- `select_version`: no available versions ⇒ no choice; otherwise scan
the descending list for the first satisfying version, then the ascending
list, with the reason strings of the source. -/
def select_version (spec_set : SpecSet) (catalog : Catalog) (package_name : String) :
    Option Ver × String :=
  let available_versions := get_available_versions catalog package_name
  if available_versions.isEmpty then (none, "No versions available")
  else
    match available_versions.find? (fun v => specSetContains spec_set v) with
    | some v => (some v, "Selected largest version: " ++ verToString v)
    | none =>
      match (List.insertionSort verAscRel available_versions).find?
          (fun v => specSetContains spec_set v) with
      | some v =>
        (some v, "No larger version found; selected smallest version: " ++ verToString v)
      | none => (none, "No compatible version found in available versions")

/-! ### `analyze_requirements` and `compare_requirements` -/

/-- One row of the diagnostic table. -/
structure Row where
  package : String
  status : String
  interval : String
  selected : String
  reason : String
deriving DecidableEq, Repr

/-- What one iteration of the `analyze_requirements` loop produces: the
appended row, the binding added to `resolved_requirements` (if any), and
whether the iteration leaves `all_resolved` alone (`true`) or sets it to
`False` (`false`). -/
structure StepOut where
  row : Row
  entry : Option (String × String)
  resolvedHere : Bool
deriving DecidableEq, Repr

/-- The body of the per-package loop of `analyze_requirements`. -/
def resolveRow (deps1 deps2 : Dict) (catalog : Catalog) (pkg : String) : StepOut :=
  let spec1 := (dictGet deps1 pkg).getD []
  let spec2 := (dictGet deps2 pkg).getD []
  let merged_spec := merge_specifiers spec1 spec2
  if spec1.isEmpty && spec2.isEmpty then
    match select_version [] catalog pkg with
    | (some v, reason) =>
      ⟨⟨pkg, "✅ Resolved", "Any version", verToString v, reason⟩,
        some (pkg, verToString v), true⟩
    | (none, reason) =>
      ⟨⟨pkg, "⚠️ Unresolved", "Any version", "-", reason⟩, none, false⟩
  else
    if merged_spec.isNone && (!spec1.isEmpty || !spec2.isEmpty) then
      ⟨⟨pkg, "❌ Conflict", specSetToString spec1 ++ " vs " ++ specSetToString spec2,
          "-", "Incompatible version constraints"⟩, none, false⟩
    else
      -- here `merged_spec` is necessarily `some` (the guard above failed and
      -- at least one spec is non-empty); `getD []` is never the taken default
      match select_version (merged_spec.getD []) catalog pkg with
      | (some v, reason) =>
        ⟨⟨pkg, "✅ Resolved", specSetToString (merged_spec.getD []), verToString v, reason⟩,
          some (pkg, verToString v), true⟩
      | (none, reason) =>
        ⟨⟨pkg, "⚠️ Unresolved", specSetToString (merged_spec.getD []), "-", reason⟩,
          none, false⟩

/-- `sorted(set(deps1.keys()) | set(deps2.keys()))`. -/
def allPackages (deps1 deps2 : Dict) : List String :=
  List.insertionSort strLe ((dictKeys deps1 ++ dictKeys deps2).dedup)

/-- Python's tuple order on the `(package, version)` pairs of
`sorted(resolved_requirements.items())`. -/
def pairLe (a b : String × String) : Prop := strLt a.1 b.1 ∨ (a.1 = b.1 ∧ strLe a.2 b.2)

instance : DecidableRel pairLe := fun a b => by unfold pairLe; infer_instance

theorem strLt_of_not_le {a b : String} (h : ¬ strLe b a) : strLt a b := by
  simpa [strLt, strLe] using h

theorem strLe_of_strLt {a b : String} (h : strLt a b) : strLe a b := by
  rcases strLeB_total a.data b.data with h2 | h2
  · exact h2
  · exact absurd h2 (by simpa [strLt] using h)

theorem strLt_trans {a b c : String} (h1 : strLt a b) (h2 : strLt b c) : strLt a c := by
  have hab : strLe a b := strLe_of_strLt h1
  cases h3 : strLeB c.data a.data with
  | false => exact h3
  | true =>
    have hcb : strLeB c.data b.data = true := strLeB_trans c.data a.data b.data h3 hab
    rw [strLt, hcb] at h2
    simp at h2

instance : IsTotal (String × String) pairLe := by
  constructor
  intro a b
  by_cases hab : strLe a.1 b.1
  · by_cases hba : strLe b.1 a.1
    · have heq : a.1 = b.1 := strLe_antisymm hab hba
      rcases strLeB_total a.2.data b.2.data with h2 | h2
      · exact Or.inl (Or.inr ⟨heq, h2⟩)
      · exact Or.inr (Or.inr ⟨heq.symm, h2⟩)
    · exact Or.inl (Or.inl (strLt_of_not_le hba))
  · exact Or.inr (Or.inl (strLt_of_not_le hab))

instance : IsTrans (String × String) pairLe := by
  constructor
  rintro a b c (h1 | ⟨h1, h1'⟩) (h2 | ⟨h2, h2'⟩)
  · exact Or.inl (strLt_trans h1 h2)
  · exact Or.inl (h2 ▸ h1)
  · exact Or.inl (h1 ▸ h2)
  · exact Or.inr ⟨h1.trans h2, strLeB_trans a.2.data b.2.data c.2.data h1' h2'⟩

/-- The four-component result of `analyze_requirements`: the report
table (`None` on a parse error), the merged manifest text, the value in
the download-file position — the written temp file is modelled by the
content written to it; on a parse error the source returns the error
message in this third position — and the `all_resolved` flag. -/
structure AnalyzeResult where
  resultsDf : Option (List Row)
  resolvedContent : Option String
  downloadFile : Option String
  allResolved : Bool
deriving DecidableEq, Repr

/-- The per-package outcomes of the `analyze_requirements` loop, in
sorted package order. -/
def analyzeOuts (deps1 deps2 : Dict) (catalog : Catalog) : List StepOut :=
  (allPackages deps1 deps2).map (resolveRow deps1 deps2 catalog)

/-- The `results` list built by the loop. -/
def analyzeRows (deps1 deps2 : Dict) (catalog : Catalog) : List Row :=
  (analyzeOuts deps1 deps2 catalog).map StepOut.row

/-- The `resolved_requirements` dict built by the loop (its keys are the
distinct sorted package names, so insertion order is already key order). -/
def analyzeResolvedReqs (deps1 deps2 : Dict) (catalog : Catalog) : List (String × String) :=
  (analyzeOuts deps1 deps2 catalog).filterMap StepOut.entry

/-- The `all_resolved` flag: starts `True`, and each iteration either
leaves it or sets it to `False`. -/
def analyzeAllResolved (deps1 deps2 : Dict) (catalog : Catalog) : Bool :=
  (analyzeOuts deps1 deps2 catalog).foldl (fun acc s => acc && s.resolvedHere) true

/-- `resolved_content`: produced only when `all_resolved` holds and
`resolved_requirements` is non-empty; one `name==version` line per
resolved package, sorted by `sorted(resolved_requirements.items())`. -/
def analyzeContent (deps1 deps2 : Dict) (catalog : Catalog) : Option String :=
  if analyzeAllResolved deps1 deps2 catalog
      && !(analyzeResolvedReqs deps1 deps2 catalog).isEmpty then
    some (String.intercalate "\n"
      ((List.insertionSort pairLe (analyzeResolvedReqs deps1 deps2 catalog)).map
        fun e => e.1 ++ "==" ++ e.2))
  else none

def analyze_requirements (file1_content file2_content : String) (catalog : Catalog) :
    AnalyzeResult :=
  match parse_requirements file1_content, parse_requirements file2_content with
  | .error e1, _ => ⟨none, none, some e1, false⟩
  | .ok _, .error e2 => ⟨none, none, some e2, false⟩
  | .ok deps1, .ok deps2 =>
    ⟨some (analyzeRows deps1 deps2 catalog), analyzeContent deps1 deps2 catalog,
      analyzeContent deps1 deps2 catalog, analyzeAllResolved deps1 deps2 catalog⟩

/-- The five-component result of `compare_requirements`. -/
structure CompareResult where
  resultsDf : Option (List Row)
  resolvedContent : Option String
  downloadFile : Option String
  allResolved : Bool
  errorMsg : Option String
deriving DecidableEq, Repr

def compare_requirements (file1_content file2_content : String) (catalog : Catalog) :
    CompareResult :=
  if file1_content == "" || file2_content == "" then
    ⟨none, none, none, false, some "Please provide content for both requirements.txt files."⟩
  else
    let a := analyze_requirements file1_content file2_content catalog
    -- the source then guards on `isinstance(results_df, str)`; since
    -- `analyze_requirements` never returns a string in its first position
    -- (parse errors travel in the third position), that guard never fires
    -- and the error component handed back to the caller is always `None`
    ⟨a.resultsDf, a.resolvedContent, a.downloadFile, a.allResolved, none⟩

/-! ### General lemmas about the embedded operations -/

theorem merge_specifiers_eq_none_iff (s1 s2 : SpecSet) :
    merge_specifiers s1 s2 = none ↔ s1 = [] ∧ s2 = [] := by
  unfold merge_specifiers
  cases s1 <;> cases s2 <;> simp

theorem merge_specifiers_nil_left (s : SpecSet) (h : s ≠ []) :
    merge_specifiers [] s = some s := by
  unfold merge_specifiers
  cases s with
  | nil => exact absurd rfl h
  | cons c cs => simp

/-- The first `find?` hit on a list sorted descending is a maximum among
all hits. -/
theorem find?_pairwise_max {p : Ver → Bool} :
    ∀ l : List Ver, l.Pairwise verDescRel → ∀ v, l.find? p = some v →
      p v = true ∧ ∀ w ∈ l, p w = true → verLe w.segs v.segs := by
  intro l
  induction l with
  | nil => intro _ v h; simp [List.find?] at h
  | cons a l ih =>
    intro hp v h
    rw [List.pairwise_cons] at hp
    cases ha : p a with
    | true =>
      rw [List.find?_cons_of_pos _ ha] at h
      cases h
      refine ⟨ha, ?_⟩
      intro w hw hpw
      rcases List.mem_cons.mp hw with rfl | hw
      · exact verLe_refl _
      · exact hp.1 w hw
    | false =>
      rw [List.find?_cons_of_neg _ (by simp [ha])] at h
      obtain ⟨h1, h2⟩ := ih hp.2 v h
      refine ⟨h1, ?_⟩
      intro w hw hpw
      rcases List.mem_cons.mp hw with rfl | hw
      · rw [ha] at hpw; cases hpw
      · exact h2 w hw hpw

theorem get_available_versions_pairwise (catalog : Catalog) (pkg : String) :
    (get_available_versions catalog pkg).Pairwise verDescRel :=
  List.sorted_insertionSort verDescRel (catalog pkg)

theorem get_available_versions_perm (catalog : Catalog) (pkg : String) :
    (get_available_versions catalog pkg).Perm (catalog pkg) :=
  List.perm_insertionSort verDescRel (catalog pkg)

theorem select_version_of_empty (spec : SpecSet) (catalog : Catalog) (pkg : String)
    (h : get_available_versions catalog pkg = []) :
    select_version spec catalog pkg = (none, "No versions available") := by
  simp only [select_version]
  rw [h]
  rfl

theorem select_version_of_desc_find (spec : SpecSet) (catalog : Catalog) (pkg : String)
    (v : Ver)
    (h : (get_available_versions catalog pkg).find? (fun v => specSetContains spec v) = some v) :
    select_version spec catalog pkg =
      (some v, "Selected largest version: " ++ verToString v) := by
  simp only [select_version]
  have hne : (get_available_versions catalog pkg).isEmpty = false := by
    cases hl : get_available_versions catalog pkg with
    | nil => rw [hl] at h; simp [List.find?] at h
    | cons a l => rfl
  rw [hne, h]
  rfl

theorem select_version_of_no_match (spec : SpecSet) (catalog : Catalog) (pkg : String)
    (hne : get_available_versions catalog pkg ≠ [])
    (h : ∀ v ∈ get_available_versions catalog pkg, specSetContains spec v = false) :
    select_version spec catalog pkg =
      (none, "No compatible version found in available versions") := by
  simp only [select_version]
  have hempty : (get_available_versions catalog pkg).isEmpty = false := by
    cases hl : get_available_versions catalog pkg with
    | nil => exact absurd hl hne
    | cons a l => rfl
  have hfind : (get_available_versions catalog pkg).find?
      (fun v => specSetContains spec v) = none := by
    rw [List.find?_eq_none]
    intro v hv
    simp [h v hv]
  have hfind2 : (List.insertionSort verAscRel (get_available_versions catalog pkg)).find?
      (fun v => specSetContains spec v) = none := by
    rw [List.find?_eq_none]
    intro v hv
    have hv' : v ∈ get_available_versions catalog pkg :=
      (List.perm_insertionSort verAscRel _).subset hv
    simp [h v hv']
  rw [hempty, hfind, hfind2]
  rfl

theorem find?_filter_ne (d : Dict) (k q : String) (hqk : q ≠ k) :
    (d.filter fun e => e.1 != k).find? (fun e => e.1 == q) =
      d.find? (fun e => e.1 == q) := by
  induction d with
  | nil => rfl
  | cons e d ih =>
    by_cases he : e.1 = q
    · have h2 : (e.1 != k) = true := by simp [he, hqk]
      simp only [List.filter_cons, h2, if_true]
      rw [List.find?_cons_of_pos _ (by simp [he]), List.find?_cons_of_pos _ (by simp [he])]
    · cases h2 : (e.1 != k) with
      | true =>
        simp only [List.filter_cons, h2, if_true]
        rw [List.find?_cons_of_neg _ (by simp [he]), List.find?_cons_of_neg _ (by simp [he])]
        exact ih
      | false =>
        simp only [List.filter_cons, h2, if_false]
        rw [List.find?_cons_of_neg _ (by simp [he])]
        exact ih

theorem dictGet_dictInsert (d : Dict) (k q : String) (v : SpecSet) :
    dictGet (dictInsert d k v) q = if q = k then some v else dictGet d q := by
  unfold dictGet dictInsert
  by_cases h : q = k
  · subst h
    rw [List.find?_cons_of_pos _ (by simp)]
    simp
  · rw [List.find?_cons_of_neg _ (by simp [Ne.symm h])]
    rw [find?_filter_ne d k q h, if_neg h]

theorem getLast?_cons_or {α : Type} (x : α) (xs : List α) :
    (x :: xs).getLast? = xs.getLast?.or (some x) := by
  cases xs with
  | nil => rfl
  | cons y ys =>
    rw [List.getLast?_cons_cons]
    obtain ⟨z, hz⟩ : ∃ z, (y :: ys).getLast? = some z :=
      ⟨(y :: ys).getLast (by simp), List.getLast?_eq_getLast _ (by simp)⟩
    rw [hz]
    rfl

/-- The specifier set that one manifest line contributes for package
`pkg` (if the line is a requirement line for `pkg`). -/
def entryFor (pkg : String) (l : List Char) : Option SpecSet :=
  match parseReqLine l with
  | .entry p s => if p = pkg then some s else none
  | _ => none

theorem parseLines_lastWins :
    ∀ (ls : List (List Char)) (acc m : Dict) (pkg : String),
      parseLines ls acc = .ok m →
      dictGet m pkg = ((ls.filterMap (entryFor pkg)).getLast?).or (dictGet acc pkg) := by
  intro ls
  induction ls with
  | nil =>
    intro acc m pkg h
    simp only [parseLines] at h
    cases h
    simp
  | cons l ls ih =>
    intro acc m pkg h
    simp only [parseLines] at h
    cases hl : parseReqLine l with
    | skip =>
      rw [hl] at h
      have he : entryFor pkg l = none := by simp [entryFor, hl]
      rw [List.filterMap_cons, he]
      exact ih acc m pkg h
    | entry p s =>
      rw [hl] at h
      have hthis := ih (dictInsert acc p s) m pkg h
      rw [dictGet_dictInsert] at hthis
      by_cases hp : p = pkg
      · subst hp
        have he : entryFor p l = some s := by simp [entryFor, hl]
        rw [List.filterMap_cons, he, getLast?_cons_or, Option.or_assoc]
        simpa using hthis
      · have he : entryFor pkg l = none := by simp [entryFor, hl, hp]
        rw [List.filterMap_cons, he]
        rw [if_neg (fun hh => hp hh.symm)] at hthis
        exact hthis
    | err msg =>
      rw [hl] at h
      cases h

theorem select_version_congr (spec : SpecSet) (catalog catalog' : Catalog) (pkg : String)
    (h : catalog' pkg = catalog pkg) :
    select_version spec catalog' pkg = select_version spec catalog pkg := by
  unfold select_version get_available_versions
  rw [h]

theorem resolveRow_package (d1 d2 : Dict) (c : Catalog) (pkg : String) :
    (resolveRow d1 d2 c pkg).row.package = pkg := by
  simp only [resolveRow]
  by_cases hb : ((dictGet d1 pkg).getD []).isEmpty && ((dictGet d2 pkg).getD []).isEmpty
  · rw [if_pos hb]
    rcases hsel : select_version [] c pkg with ⟨ov, reason⟩
    cases ov <;> rfl
  · rw [if_neg hb]
    by_cases hc : (merge_specifiers ((dictGet d1 pkg).getD []) ((dictGet d2 pkg).getD [])).isNone
        && (!((dictGet d1 pkg).getD []).isEmpty || !((dictGet d2 pkg).getD []).isEmpty)
    · rw [if_pos hc]
    · rw [if_neg hc]
      rcases hsel : select_version
          ((merge_specifiers ((dictGet d1 pkg).getD []) ((dictGet d2 pkg).getD [])).getD [])
          c pkg with ⟨ov, reason⟩
      cases ov <;> rfl

/-- The `'❌ Conflict'` branch of the loop body is unreachable: its guard
needs `merge_specifiers` to return `None`, which happens exactly when
both specifier sets are empty — and that case was already diverted into
the both-unconstrained branch. -/
theorem resolveRow_not_conflict (d1 d2 : Dict) (c : Catalog) (pkg : String) :
    (resolveRow d1 d2 c pkg).row.status ≠ "❌ Conflict" := by
  simp only [resolveRow]
  by_cases hb : ((dictGet d1 pkg).getD []).isEmpty && ((dictGet d2 pkg).getD []).isEmpty
  · rw [if_pos hb]
    rcases hsel : select_version [] c pkg with ⟨ov, reason⟩
    cases ov with
    | none => exact (by decide : ("⚠️ Unresolved" : String) ≠ "❌ Conflict")
    | some v => exact (by decide : ("✅ Resolved" : String) ≠ "❌ Conflict")
  · rw [if_neg hb]
    by_cases hc : (merge_specifiers ((dictGet d1 pkg).getD []) ((dictGet d2 pkg).getD [])).isNone
        && (!((dictGet d1 pkg).getD []).isEmpty || !((dictGet d2 pkg).getD []).isEmpty)
    · exfalso
      have h1 := (Bool.and_eq_true _ _).mp hc
      have h2 := (merge_specifiers_eq_none_iff _ _).mp (Option.isNone_iff_eq_none.mp h1.1)
      exact hb (by rw [h2.1, h2.2]; rfl)
    · rw [if_neg hc]
      rcases hsel : select_version
          ((merge_specifiers ((dictGet d1 pkg).getD []) ((dictGet d2 pkg).getD [])).getD [])
          c pkg with ⟨ov, reason⟩
      cases ov with
      | none => exact (by decide : ("⚠️ Unresolved" : String) ≠ "❌ Conflict")
      | some v => exact (by decide : ("✅ Resolved" : String) ≠ "❌ Conflict")

/-- An iteration leaves `all_resolved` untouched exactly when it emitted
a Resolved row. -/
theorem resolveRow_resolvedHere_iff (d1 d2 : Dict) (c : Catalog) (pkg : String) :
    (resolveRow d1 d2 c pkg).resolvedHere = true ↔
      (resolveRow d1 d2 c pkg).row.status = "✅ Resolved" := by
  simp only [resolveRow]
  by_cases hb : ((dictGet d1 pkg).getD []).isEmpty && ((dictGet d2 pkg).getD []).isEmpty
  · rw [if_pos hb]
    rcases hsel : select_version [] c pkg with ⟨ov, reason⟩
    cases ov <;> simp
  · rw [if_neg hb]
    by_cases hc : (merge_specifiers ((dictGet d1 pkg).getD []) ((dictGet d2 pkg).getD [])).isNone
        && (!((dictGet d1 pkg).getD []).isEmpty || !((dictGet d2 pkg).getD []).isEmpty)
    · rw [if_pos hc]
      simp
    · rw [if_neg hc]
      rcases hsel : select_version
          ((merge_specifiers ((dictGet d1 pkg).getD []) ((dictGet d2 pkg).getD [])).getD [])
          c pkg with ⟨ov, reason⟩
      cases ov <;> simp

/-- An iteration adds `pkg ↦ str(selected)` to `resolved_requirements`
exactly when it resolved, and records the row's selected-version text. -/
theorem resolveRow_entry_eq (d1 d2 : Dict) (c : Catalog) (pkg : String) :
    (resolveRow d1 d2 c pkg).entry =
      if (resolveRow d1 d2 c pkg).resolvedHere then
        some (pkg, (resolveRow d1 d2 c pkg).row.selected)
      else none := by
  simp only [resolveRow]
  by_cases hb : ((dictGet d1 pkg).getD []).isEmpty && ((dictGet d2 pkg).getD []).isEmpty
  · rw [if_pos hb]
    rcases hsel : select_version [] c pkg with ⟨ov, reason⟩
    cases ov <;> simp
  · rw [if_neg hb]
    by_cases hc : (merge_specifiers ((dictGet d1 pkg).getD []) ((dictGet d2 pkg).getD [])).isNone
        && (!((dictGet d1 pkg).getD []).isEmpty || !((dictGet d2 pkg).getD []).isEmpty)
    · rw [if_pos hc]
      simp
    · rw [if_neg hc]
      rcases hsel : select_version
          ((merge_specifiers ((dictGet d1 pkg).getD []) ((dictGet d2 pkg).getD [])).getD [])
          c pkg with ⟨ov, reason⟩
      cases ov <;> simp

/-- The loop body consults the catalog only at its own package. -/
theorem resolveRow_catalog_congr (d1 d2 : Dict) (c c' : Catalog) (pkg : String)
    (h : c' pkg = c pkg) :
    resolveRow d1 d2 c' pkg = resolveRow d1 d2 c pkg := by
  simp only [resolveRow]
  rw [select_version_congr [] c c' pkg h]
  rw [select_version_congr
    ((merge_specifiers ((dictGet d1 pkg).getD []) ((dictGet d2 pkg).getD [])).getD [])
    c c' pkg h]

/-- A package whose catalog answer is empty yields the Unresolved /
"No versions available" row, in every branch of the loop body. -/
theorem resolveRow_empty_catalog (d1 d2 : Dict) (c : Catalog) (pkg : String)
    (h : c pkg = []) :
    (resolveRow d1 d2 c pkg).row.status = "⚠️ Unresolved" ∧
    (resolveRow d1 d2 c pkg).row.reason = "No versions available" ∧
    (resolveRow d1 d2 c pkg).resolvedHere = false := by
  have havs : get_available_versions c pkg = [] := by
    unfold get_available_versions
    rw [h]
    rfl
  have hsel : ∀ s : SpecSet, select_version s c pkg = (none, "No versions available") :=
    fun s => select_version_of_empty s c pkg havs
  simp only [resolveRow]
  by_cases hb : ((dictGet d1 pkg).getD []).isEmpty && ((dictGet d2 pkg).getD []).isEmpty
  · rw [if_pos hb, hsel []]
    exact ⟨rfl, rfl, rfl⟩
  · rw [if_neg hb]
    by_cases hc : (merge_specifiers ((dictGet d1 pkg).getD []) ((dictGet d2 pkg).getD [])).isNone
        && (!((dictGet d1 pkg).getD []).isEmpty || !((dictGet d2 pkg).getD []).isEmpty)
    · exfalso
      have h1 := (Bool.and_eq_true _ _).mp hc
      have h2 := (merge_specifiers_eq_none_iff _ _).mp (Option.isNone_iff_eq_none.mp h1.1)
      exact hb (by rw [h2.1, h2.2]; rfl)
    · rw [if_neg hc, hsel _]
      exact ⟨rfl, rfl, rfl⟩

theorem foldl_and_resolved (l : List StepOut) :
    ∀ b : Bool, l.foldl (fun acc s => acc && s.resolvedHere) b
      = (b && l.all StepOut.resolvedHere) := by
  induction l with
  | nil => intro b; simp
  | cons s l ih =>
    intro b
    rw [List.foldl_cons, ih, List.all_cons]
    cases b <;> cases s.resolvedHere <;> rfl

theorem analyzeAllResolved_eq_all (d1 d2 : Dict) (c : Catalog) :
    analyzeAllResolved d1 d2 c = (analyzeOuts d1 d2 c).all StepOut.resolvedHere := by
  unfold analyzeAllResolved
  rw [foldl_and_resolved]
  exact Bool.true_and _

theorem analyze_requirements_ok {f1 f2 : String} {d1 d2 : Dict} (catalog : Catalog)
    (h1 : parse_requirements f1 = .ok d1) (h2 : parse_requirements f2 = .ok d2) :
    analyze_requirements f1 f2 catalog =
      ⟨some (analyzeRows d1 d2 catalog), analyzeContent d1 d2 catalog,
        analyzeContent d1 d2 catalog, analyzeAllResolved d1 d2 catalog⟩ := by
  unfold analyze_requirements
  rw [h1, h2]

theorem map_eq_self_of_mem {α : Type} (l : List α) (f : α → α) (h : ∀ x ∈ l, f x = x) :
    l.map f = l := by
  induction l with
  | nil => rfl
  | cons x xs ih =>
    rw [List.map_cons, h x (by simp), ih fun y hy => h y (by simp [hy])]

theorem analyzeRows_map_package (d1 d2 : Dict) (c : Catalog) :
    (analyzeRows d1 d2 c).map Row.package = allPackages d1 d2 := by
  unfold analyzeRows analyzeOuts
  rw [List.map_map, List.map_map]
  exact map_eq_self_of_mem _ _ fun pkg _ => resolveRow_package d1 d2 c pkg

theorem allPackages_pairwise (d1 d2 : Dict) : (allPackages d1 d2).Pairwise strLe :=
  List.sorted_insertionSort strLe ((dictKeys d1 ++ dictKeys d2).dedup)

theorem allPackages_nodup (d1 d2 : Dict) : (allPackages d1 d2).Nodup :=
  (List.perm_insertionSort strLe ((dictKeys d1 ++ dictKeys d2).dedup)).nodup_iff.mpr
    (List.nodup_dedup _)

theorem mem_allPackages (d1 d2 : Dict) (pkg : String) :
    pkg ∈ allPackages d1 d2 ↔ pkg ∈ dictKeys d1 ∨ pkg ∈ dictKeys d2 := by
  unfold allPackages
  rw [(List.perm_insertionSort strLe _).mem_iff]
  simp

theorem mem_analyzeOuts (d1 d2 : Dict) (c : Catalog) (o : StepOut) :
    o ∈ analyzeOuts d1 d2 c ↔ ∃ pkg ∈ allPackages d1 d2, o = resolveRow d1 d2 c pkg := by
  unfold analyzeOuts
  rw [List.mem_map]
  constructor
  · rintro ⟨pkg, hpkg, rfl⟩; exact ⟨pkg, hpkg, rfl⟩
  · rintro ⟨pkg, hpkg, rfl⟩; exact ⟨pkg, hpkg, rfl⟩

theorem filterMap_eq_map_of_all_some {α β : Type} (f : α → Option β) (g : α → β) :
    ∀ l : List α, (∀ x ∈ l, f x = some (g x)) → l.filterMap f = l.map g := by
  intro l
  induction l with
  | nil => intro _; rfl
  | cons x xs ih =>
    intro h
    rw [List.filterMap_cons, h x (by simp), List.map_cons,
      ih fun y hy => h y (by simp [hy])]

theorem strLt_of_le_of_ne {a b : String} (h1 : strLe a b) (h2 : a ≠ b) : strLt a b := by
  cases h3 : strLeB b.data a.data with
  | false => exact h3
  | true => exact absurd (strLe_antisymm h1 h3) h2

/-! ### Claim theorems -/

/-- C3 counterexample: intersecting the unconstrained set with the
unconstrained set itself yields the incompatibility sentinel `none`, not
the unconstrained set back — the identity law fails at X = unconstrained. -/
theorem C3_cex :
    merge_specifiers ([] : SpecSet) ([] : SpecSet) = none ∧
      (none : Option SpecSet) ≠ some ([] : SpecSet) := ⟨rfl, by decide⟩

/-- C3 (amended): for every non-empty ConstraintSet X,
`merge_specifiers` applied to the empty specifier set and X returns X
itself; only for the empty X does it return the sentinel. -/
theorem C3_amended_identity (X : SpecSet) (h : X ≠ []) :
    merge_specifiers [] X = some X :=
  merge_specifiers_nil_left X h

theorem C3_witness :
    merge_specifiers [] [(Op.ge, ⟨[1, 0]⟩)] = some [(Op.ge, ⟨[1, 0]⟩)] :=
  C3_amended_identity [(Op.ge, ⟨[1, 0]⟩)] (by decide)

/-- C2 (code bug, evaluated at the failing input): with an invalid
clause `@@@bad` in the first manifest, `compare_requirements` returns no
report table and no merged output, but the error message lands in the
download-file component while the error component handed to the caller
is `none` — the parse error never reaches the caller's error channel. -/
theorem C2_error_in_download_slot :
    compare_requirements "pkg@@@bad" "requests" (fun _ => []) =
      ⟨none, none, some "Invalid specifier for pkg: @@@bad", false, none⟩ := rfl

/-- C4: for parseable manifests, no emitted row ever has status
Conflict: the Conflict branch's guard needs `merge_specifiers` to return
`None`, which only happens when both specifier sets are empty, a case
already diverted to the both-unconstrained branch. -/
theorem C4_no_conflict_rows (f1 f2 : String) (catalog : Catalog) (d1 d2 : Dict)
    (h1 : parse_requirements f1 = .ok d1) (h2 : parse_requirements f2 = .ok d2) :
    ∀ rows, (analyze_requirements f1 f2 catalog).resultsDf = some rows →
      ∀ r ∈ rows, r.status ≠ "❌ Conflict" := by
  intro rows hrows r hr
  rw [analyze_requirements_ok catalog h1 h2] at hrows
  obtain rfl := (Option.some.inj hrows).symm
  unfold analyzeRows at hr
  obtain ⟨o, ho, rfl⟩ := List.mem_map.mp hr
  obtain ⟨pkg, _, rfl⟩ := (mem_analyzeOuts d1 d2 catalog o).mp ho
  exact resolveRow_not_conflict d1 d2 catalog pkg

theorem C4_witness :
    Row.status ⟨"a", "✅ Resolved", "==1", "1", "Selected largest version: 1"⟩
      ≠ "❌ Conflict" :=
  C4_no_conflict_rows "a==1" "" (fun _ => [⟨[1]⟩]) [("a", [(Op.eq, ⟨[1]⟩)])] [] rfl rfl
    [⟨"a", "✅ Resolved", "==1", "1", "Selected largest version: 1"⟩] rfl
    ⟨"a", "✅ Resolved", "==1", "1", "Selected largest version: 1"⟩ (by decide)

/-- C9: `parse_requirements` maps each package to the specifier set of
the LAST manifest line naming it (names lower-cased): the resulting
binding is the last entry among the lines' contributions for that
package, so earlier duplicate lines have no effect. -/
theorem C9_last_write_wins (content : String) (m : Dict) (pkg : String)
    (h : parse_requirements content = .ok m) :
    dictGet m pkg =
      ((splitOnChar '\n' content.data).filterMap (entryFor pkg)).getLast? := by
  have hthis := parseLines_lastWins (splitOnChar '\n' content.data) [] m pkg h
  rw [show dictGet [] pkg = none from rfl, Option.or_none] at hthis
  exact hthis

theorem C9_witness :
    dictGet [("flask", []), ("requests", [(Op.eq, ⟨[2, 0]⟩)])] "requests" =
      ((splitOnChar '\n' ("requests==1.0\nrequests==2.0\n# pin\nflask" : String).data).filterMap
        (entryFor "requests")).getLast? :=
  C9_last_write_wins "requests==1.0\nrequests==2.0\n# pin\nflask"
    [("flask", []), ("requests", [(Op.eq, ⟨[2, 0]⟩)])] "requests" rfl

/-- C10: an empty (falsy) manifest text makes `compare_requirements`
return no report, no merged content, no download file,
`all_resolved = false` and the prompt error — even though the empty text
itself parses to the empty Manifest without any syntax error. -/
theorem C10_empty_input (f1 f2 : String) (catalog : Catalog) (h : f1 = "" ∨ f2 = "") :
    compare_requirements f1 f2 catalog =
      ⟨none, none, none, false,
        some "Please provide content for both requirements.txt files."⟩ ∧
    parse_requirements "" = .ok [] := by
  refine ⟨?_, rfl⟩
  unfold compare_requirements
  rcases h with rfl | rfl
  · rfl
  · have hc : (f1 == "" || ("" : String) == "") = true := by
      rw [show (("" : String) == "") = true from rfl, Bool.or_true]
    rw [if_pos hc]

theorem C10_witness :
    compare_requirements "" "requests" (fun _ => []) =
      ⟨none, none, none, false,
        some "Please provide content for both requirements.txt files."⟩ ∧
    parse_requirements "" = .ok [] :=
  C10_empty_input "" "requests" (fun _ => []) (Or.inl rfl)

/-- C1 counterexample: on the two conflicting `flask` pins with a
catalog offering 1.0 and 2.0, the report row has status Unresolved —
not Conflict as the claim states (the Conflict branch never fires,
because the clause-union of the two pins is non-empty). -/
theorem C1_cex :
    analyze_requirements "flask==1.0" "flask==2.0" (fun _ => [⟨[2, 0]⟩, ⟨[1, 0]⟩]) =
      ⟨some [⟨"flask", "⚠️ Unresolved", "==1.0,==2.0", "-",
          "No compatible version found in available versions"⟩], none, none, false⟩ ∧
    ("⚠️ Unresolved" : String) ≠ "❌ Conflict" := ⟨rfl, by decide⟩

/-- C1 (amended): for the scenario-B inputs and ANY catalog, the flask
row has status Unresolved (no version can satisfy both `==1.0` and
`==2.0`), the merged output and the download file are withheld, and
`all_resolved = false`. -/
theorem C1_amended_flask_unresolved (catalog : Catalog) :
    ∃ reason,
      analyze_requirements "flask==1.0" "flask==2.0" catalog =
        ⟨some [⟨"flask", "⚠️ Unresolved", "==1.0,==2.0", "-", reason⟩],
          none, none, false⟩ := by
  have h1 : parse_requirements "flask==1.0" = .ok [("flask", [(Op.eq, ⟨[1, 0]⟩)])] := rfl
  have h2 : parse_requirements "flask==2.0" = .ok [("flask", [(Op.eq, ⟨[2, 0]⟩)])] := rfl
  have hnm : ∀ v, specSetContains [(Op.eq, ⟨[1, 0]⟩), (Op.eq, ⟨[2, 0]⟩)] v = false := by
    intro v
    cases hc1 : clauseHolds v (Op.eq, ⟨[1, 0]⟩) with
    | false => simp [specSetContains, hc1]
    | true =>
      cases hc2 : clauseHolds v (Op.eq, ⟨[2, 0]⟩) with
      | false => simp [specSetContains, hc1, hc2]
      | true =>
        exfalso
        simp only [clauseHolds] at hc1 hc2
        have toEq : ∀ s c : List Nat,
            (verCmp s c == Ordering.eq) = true → verCmp s c = Ordering.eq := by
          intro s c h
          cases hord : verCmp s c
          all_goals try rw [hord] at h
          all_goals first
            | rfl
            | exact absurd h (by decide)
        exact absurd (verCmp_eq_euclidean (toEq _ _ hc1) (toEq _ _ hc2)) (by decide)
  have hselE : ∃ reason,
      select_version [(Op.eq, ⟨[1, 0]⟩), (Op.eq, ⟨[2, 0]⟩)] catalog "flask" =
        (none, reason) := by
    cases havs : get_available_versions catalog "flask" with
    | nil => exact ⟨_, select_version_of_empty _ catalog "flask" havs⟩
    | cons a l =>
      refine ⟨_, select_version_of_no_match _ catalog "flask" (by rw [havs]; simp) ?_⟩
      intro v _
      exact hnm v
  obtain ⟨reason, hsel⟩ := hselE
  refine ⟨reason, ?_⟩
  rw [analyze_requirements_ok catalog h1 h2]
  have hrr : resolveRow [("flask", [(Op.eq, ⟨[1, 0]⟩)])] [("flask", [(Op.eq, ⟨[2, 0]⟩)])]
      catalog "flask" =
      (match select_version [(Op.eq, ⟨[1, 0]⟩), (Op.eq, ⟨[2, 0]⟩)] catalog "flask" with
        | (some v, r) =>
          (⟨⟨"flask", "✅ Resolved", "==1.0,==2.0", verToString v, r⟩,
            some ("flask", verToString v), true⟩ : StepOut)
        | (none, r) =>
          ⟨⟨"flask", "⚠️ Unresolved", "==1.0,==2.0", "-", r⟩, none, false⟩) := rfl
  rw [hsel] at hrr
  have hout : analyzeOuts [("flask", [(Op.eq, ⟨[1, 0]⟩)])] [("flask", [(Op.eq, ⟨[2, 0]⟩)])]
      catalog =
      [⟨⟨"flask", "⚠️ Unresolved", "==1.0,==2.0", "-", reason⟩, none, false⟩] := by
    show [resolveRow [("flask", [(Op.eq, ⟨[1, 0]⟩)])] [("flask", [(Op.eq, ⟨[2, 0]⟩)])]
      catalog "flask"] = _
    rw [hrr]
  have hrows : analyzeRows [("flask", [(Op.eq, ⟨[1, 0]⟩)])] [("flask", [(Op.eq, ⟨[2, 0]⟩)])]
      catalog = [⟨"flask", "⚠️ Unresolved", "==1.0,==2.0", "-", reason⟩] := by
    unfold analyzeRows
    rw [hout]
    rfl
  have hall : analyzeAllResolved [("flask", [(Op.eq, ⟨[1, 0]⟩)])]
      [("flask", [(Op.eq, ⟨[2, 0]⟩)])] catalog = false := by
    unfold analyzeAllResolved
    rw [hout]
    rfl
  have hcont : analyzeContent [("flask", [(Op.eq, ⟨[1, 0]⟩)])]
      [("flask", [(Op.eq, ⟨[2, 0]⟩)])] catalog = none := by
    unfold analyzeContent
    rw [hall]
    rfl
  rw [hrows, hall, hcont]

/-- C5: the selection contract, with the available versions being the
catalog's (descending-sorted) answer: empty list ⇒ no version with
reason "No versions available"; some satisfying version ⇒ the maximum
satisfying version is returned; none satisfying ⇒ no version with the
no-compatible-version reason. -/
theorem C5_selection_contract (spec : SpecSet) (catalog : Catalog) (pkg : String) :
    (get_available_versions catalog pkg = [] →
      select_version spec catalog pkg = (none, "No versions available")) ∧
    ((∃ v ∈ get_available_versions catalog pkg, specSetContains spec v = true) →
      ∃ v, select_version spec catalog pkg =
          (some v, "Selected largest version: " ++ verToString v) ∧
        specSetContains spec v = true ∧
        ∀ w ∈ get_available_versions catalog pkg, specSetContains spec w = true →
          verLe w.segs v.segs) ∧
    (get_available_versions catalog pkg ≠ [] →
      (∀ v ∈ get_available_versions catalog pkg, specSetContains spec v = false) →
      select_version spec catalog pkg =
        (none, "No compatible version found in available versions")) := by
  refine ⟨select_version_of_empty spec catalog pkg, ?_,
    select_version_of_no_match spec catalog pkg⟩
  rintro ⟨v0, hv0, hp0⟩
  cases hf : (get_available_versions catalog pkg).find? (fun v => specSetContains spec v) with
  | none =>
    exfalso
    rw [List.find?_eq_none] at hf
    exact absurd hp0 (by simpa using hf v0 hv0)
  | some v =>
    obtain ⟨hpv, hmax⟩ := find?_pairwise_max _ (get_available_versions_pairwise catalog pkg) v hf
    exact ⟨v, select_version_of_desc_find spec catalog pkg v hf, hpv, hmax⟩

theorem C5_witness :
    select_version [] (fun _ => ([] : List Ver)) "p" = (none, "No versions available") ∧
    (∃ v, select_version [] (fun _ => [⟨[1]⟩, ⟨[2]⟩]) "q" =
        (some v, "Selected largest version: " ++ verToString v) ∧
      specSetContains [] v = true ∧
      ∀ w ∈ get_available_versions (fun _ => [⟨[1]⟩, ⟨[2]⟩]) "q",
        specSetContains [] w = true → verLe w.segs v.segs) ∧
    select_version [(Op.eq, ⟨[3]⟩)] (fun _ => [⟨[1]⟩]) "r" =
      (none, "No compatible version found in available versions") :=
  ⟨(C5_selection_contract [] (fun _ => []) "p").1 rfl,
   (C5_selection_contract [] (fun _ => [⟨[1]⟩, ⟨[2]⟩]) "q").2.1 ⟨⟨[2]⟩, by decide, by decide⟩,
   (C5_selection_contract [(Op.eq, ⟨[3]⟩)] (fun _ => [⟨[1]⟩]) "r").2.2 (by decide) (by decide)⟩

/-- Modelled from the claim's one-pass description: return the maximum
available version satisfying the constraint set — the first satisfying
entry of the descending-sorted availability list — or none, with no
second ascending scan and hence no fallback reason. -/
def select_version_one_pass (spec_set : SpecSet) (catalog : Catalog) (package_name : String) :
    Option Ver × String :=
  let available_versions := get_available_versions catalog package_name
  if available_versions.isEmpty then (none, "No versions available")
  else
    match available_versions.find? (fun v => specSetContains spec_set v) with
    | some v => (some v, "Selected largest version: " ++ verToString v)
    | none => (none, "No compatible version found in available versions")

/-- C6: `select_version` is extensionally equal to the one-pass
definition: the second, ascending scan can never return, because it
tests the same predicate over a permutation of the versions the
descending scan already exhausted. -/
theorem C6_one_pass_equivalence (spec : SpecSet) (catalog : Catalog) (pkg : String) :
    select_version spec catalog pkg = select_version_one_pass spec catalog pkg := by
  simp only [select_version, select_version_one_pass]
  by_cases hE : (get_available_versions catalog pkg).isEmpty = true
  · rw [if_pos hE, if_pos hE]
  · rw [if_neg hE, if_neg hE]
    cases hf : (get_available_versions catalog pkg).find?
        (fun v => specSetContains spec v) with
    | some v => rfl
    | none =>
      have hf2 : (List.insertionSort verAscRel (get_available_versions catalog pkg)).find?
          (fun v => specSetContains spec v) = none := by
        rw [List.find?_eq_none] at hf ⊢
        intro v hv
        exact hf v ((List.perm_insertionSort verAscRel _).subset hv)
      rw [hf2]

theorem analyzeOuts_entry_some (d1 d2 : Dict) (c : Catalog) (o : StepOut)
    (ho : o ∈ analyzeOuts d1 d2 c) (hres : o.resolvedHere = true) :
    o.entry = some (o.row.package, o.row.selected) := by
  obtain ⟨pkg, _, rfl⟩ := (mem_analyzeOuts d1 d2 c o).mp ho
  rw [resolveRow_entry_eq, if_pos hres, resolveRow_package d1 d2 c pkg]

theorem analyzeResolvedReqs_of_allResolved (d1 d2 : Dict) (c : Catalog)
    (h : analyzeAllResolved d1 d2 c = true) :
    analyzeResolvedReqs d1 d2 c =
      (analyzeOuts d1 d2 c).map fun o => (o.row.package, o.row.selected) := by
  unfold analyzeResolvedReqs
  apply filterMap_eq_map_of_all_some
  intro o ho
  have hres : o.resolvedHere = true := by
    rw [analyzeAllResolved_eq_all] at h
    exact List.all_eq_true.mp h o ho
  exact analyzeOuts_entry_some d1 d2 c o ho hres

theorem analyzeResolvedReqs_pairwise (d1 d2 : Dict) (c : Catalog)
    (h : analyzeAllResolved d1 d2 c = true) :
    (analyzeResolvedReqs d1 d2 c).Pairwise pairLe := by
  rw [analyzeResolvedReqs_of_allResolved d1 d2 c h]
  unfold analyzeOuts
  rw [List.map_map]
  have hpw : (allPackages d1 d2).Pairwise fun p q => strLe p q ∧ p ≠ q :=
    (allPackages_pairwise d1 d2).and (allPackages_nodup d1 d2)
  refine hpw.map _ ?_
  intro p q hpq
  left
  show strLt (((resolveRow d1 d2 c p).row.package, (resolveRow d1 d2 c p).row.selected)).1
    (((resolveRow d1 d2 c q).row.package, (resolveRow d1 d2 c q).row.selected)).1
  rw [resolveRow_package d1 d2 c p, resolveRow_package d1 d2 c q]
  exact strLt_of_le_of_ne hpq.1 hpq.2

/-- C7: for parseable inputs, `all_resolved` is true iff every emitted
row is Resolved; the merged manifest text exists iff `all_resolved`
holds and at least one package was processed; and when it exists it is
exactly one `<name>==<version>` line per report row, with the package
names in ascending (already sorted, duplicate-free) order. -/
theorem C7_merged_output_contract (f1 f2 : String) (catalog : Catalog) (d1 d2 : Dict)
    (h1 : parse_requirements f1 = .ok d1) (h2 : parse_requirements f2 = .ok d2) :
    (analyze_requirements f1 f2 catalog).resultsDf = some (analyzeRows d1 d2 catalog) ∧
    ((analyze_requirements f1 f2 catalog).allResolved = true ↔
      ∀ r ∈ analyzeRows d1 d2 catalog, r.status = "✅ Resolved") ∧
    ((∃ c, (analyze_requirements f1 f2 catalog).resolvedContent = some c) ↔
      ((analyze_requirements f1 f2 catalog).allResolved = true ∧
        analyzeRows d1 d2 catalog ≠ [])) ∧
    (∀ c, (analyze_requirements f1 f2 catalog).resolvedContent = some c →
      c = String.intercalate "\n"
        ((analyzeRows d1 d2 catalog).map fun r => r.package ++ "==" ++ r.selected) ∧
      (analyzeRows d1 d2 catalog).map Row.package = allPackages d1 d2 ∧
      ((analyzeRows d1 d2 catalog).map Row.package).Pairwise strLe ∧
      ((analyzeRows d1 d2 catalog).map Row.package).Nodup) := by
  rw [analyze_requirements_ok catalog h1 h2]
  refine ⟨rfl, ?_, ?_, ?_⟩
  · -- all_resolved ↔ every row Resolved
    show analyzeAllResolved d1 d2 catalog = true ↔ _
    rw [analyzeAllResolved_eq_all, List.all_eq_true]
    constructor
    · intro h r hr
      obtain ⟨o, ho, rfl⟩ := List.mem_map.mp hr
      obtain ⟨pkg, hpkg, rfl⟩ := (mem_analyzeOuts d1 d2 catalog o).mp ho
      exact (resolveRow_resolvedHere_iff d1 d2 catalog pkg).mp (h _ ho)
    · intro h o ho
      obtain ⟨pkg, hpkg, rfl⟩ := (mem_analyzeOuts d1 d2 catalog o).mp ho
      exact (resolveRow_resolvedHere_iff d1 d2 catalog pkg).mpr
        (h _ (List.mem_map_of_mem StepOut.row ho))
  · -- content present iff all_resolved and at least one row
    show (∃ c, analyzeContent d1 d2 catalog = some c) ↔ _
    unfold analyzeContent
    by_cases hc : (analyzeAllResolved d1 d2 catalog
        && !(analyzeResolvedReqs d1 d2 catalog).isEmpty) = true
    · rw [if_pos hc]
      obtain ⟨hall, hne⟩ := Bool.and_eq_true _ _ |>.mp hc
      constructor
      · intro _
        refine ⟨hall, ?_⟩
        intro habs
        have houts : analyzeOuts d1 d2 catalog = [] := by
          have := congrArg (List.map StepOut.row) (rfl :
            analyzeOuts d1 d2 catalog = analyzeOuts d1 d2 catalog)
          unfold analyzeRows at habs
          cases houts2 : analyzeOuts d1 d2 catalog with
          | nil => rfl
          | cons o os => rw [houts2] at habs; cases habs
        have : analyzeResolvedReqs d1 d2 catalog = [] := by
          unfold analyzeResolvedReqs
          rw [houts]
          rfl
        rw [this] at hne
        cases hne
      · intro _
        exact ⟨_, rfl⟩
    · rw [if_neg hc]
      constructor
      · rintro ⟨c, hcc⟩
        cases hcc
      · rintro ⟨hall, hrows⟩
        exfalso
        have hall2 : analyzeAllResolved d1 d2 catalog = true := hall
        rw [hall2] at hc
        have hreqs : (analyzeResolvedReqs d1 d2 catalog).isEmpty = true := by
          cases hr : (analyzeResolvedReqs d1 d2 catalog).isEmpty with
          | true => rfl
          | false => rw [hr] at hc; exact absurd rfl hc
        have hmap := analyzeResolvedReqs_of_allResolved d1 d2 catalog hall
        apply hrows
        unfold analyzeRows
        cases houts : analyzeOuts d1 d2 catalog with
        | nil => rfl
        | cons o os =>
          rw [houts] at hmap
          rw [hmap] at hreqs
          cases hreqs
  · -- the produced text: one line per row, sorted, duplicate-free names
    intro c hcc
    show _ ∧ _ ∧ _ ∧ _
    have hmapp := analyzeRows_map_package d1 d2 catalog
    refine ⟨?_, hmapp, by rw [hmapp]; exact allPackages_pairwise d1 d2,
      by rw [hmapp]; exact allPackages_nodup d1 d2⟩
    revert hcc
    show analyzeContent d1 d2 catalog = some c → _
    unfold analyzeContent
    by_cases hc : (analyzeAllResolved d1 d2 catalog
        && !(analyzeResolvedReqs d1 d2 catalog).isEmpty) = true
    · rw [if_pos hc]
      intro hcc
      obtain ⟨hall, _⟩ := Bool.and_eq_true _ _ |>.mp hc
      have hsorted := analyzeResolvedReqs_pairwise d1 d2 catalog hall
      have hfix : List.insertionSort pairLe (analyzeResolvedReqs d1 d2 catalog) =
          analyzeResolvedReqs d1 d2 catalog :=
        List.Sorted.insertionSort_eq hsorted
      have hmap := analyzeResolvedReqs_of_allResolved d1 d2 catalog hall
      have hlines : (List.insertionSort pairLe (analyzeResolvedReqs d1 d2 catalog)).map
            (fun e => e.1 ++ "==" ++ e.2) =
          (analyzeRows d1 d2 catalog).map fun r => r.package ++ "==" ++ r.selected := by
        rw [hfix, hmap]
        unfold analyzeRows
        rw [List.map_map, List.map_map]
        rfl
      rw [← hlines]
      exact (Option.some.inj hcc).symm
    · rw [if_neg hc]
      intro hcc
      cases hcc

theorem C7_witness :
    (analyze_requirements "b==2" "" (fun _ => [⟨[2]⟩])).resultsDf =
      some (analyzeRows [("b", [(Op.eq, ⟨[2]⟩)])] [] (fun _ => [⟨[2]⟩])) :=
  (C7_merged_output_contract "b==2" "" (fun _ => [⟨[2]⟩])
    [("b", [(Op.eq, ⟨[2]⟩)])] [] rfl rfl).1

theorem map_congr_mem {α β : Type} (l : List α) (f g : α → β)
    (h : ∀ x ∈ l, f x = g x) : l.map f = l.map g := by
  induction l with
  | nil => rfl
  | cons x xs ih =>
    rw [List.map_cons, List.map_cons, h x (by simp), ih fun y hy => h y (by simp [hy])]

/-- C8: a package whose catalog answer is empty does not abort
resolution: the report still exists with one row per package, that
package's row is Unresolved with reason "No versions available",
`all_resolved` is false, and the rows of every other package are
unchanged under any catalog that agrees outside this package. -/
theorem C8_empty_catalog_nonfatal (f1 f2 : String) (catalog : Catalog) (pkg : String)
    (d1 d2 : Dict)
    (h1 : parse_requirements f1 = .ok d1) (h2 : parse_requirements f2 = .ok d2)
    (hmem : pkg ∈ allPackages d1 d2) (hcat : catalog pkg = []) :
    (analyze_requirements f1 f2 catalog).resultsDf = some (analyzeRows d1 d2 catalog) ∧
    (analyzeRows d1 d2 catalog).map Row.package = allPackages d1 d2 ∧
    (∀ r ∈ analyzeRows d1 d2 catalog, r.package = pkg →
      r.status = "⚠️ Unresolved" ∧ r.reason = "No versions available") ∧
    (analyze_requirements f1 f2 catalog).allResolved = false ∧
    (∀ catalog' : Catalog, (∀ q, q ≠ pkg → catalog' q = catalog q) →
      (analyzeRows d1 d2 catalog').filter (fun r => r.package != pkg) =
        (analyzeRows d1 d2 catalog).filter (fun r => r.package != pkg)) := by
  refine ⟨by rw [analyze_requirements_ok catalog h1 h2],
    analyzeRows_map_package d1 d2 catalog, ?_, ?_, ?_⟩
  · intro r hr hrp
    unfold analyzeRows at hr
    obtain ⟨o, ho, rfl⟩ := List.mem_map.mp hr
    obtain ⟨q, hq, rfl⟩ := (mem_analyzeOuts d1 d2 catalog o).mp ho
    have hqp : q = pkg := (resolveRow_package d1 d2 catalog q).symm.trans hrp
    subst hqp
    exact ⟨(resolveRow_empty_catalog d1 d2 catalog q hcat).1,
      (resolveRow_empty_catalog d1 d2 catalog q hcat).2.1⟩
  · rw [analyze_requirements_ok catalog h1 h2]
    show analyzeAllResolved d1 d2 catalog = false
    rw [analyzeAllResolved_eq_all]
    have ho : resolveRow d1 d2 catalog pkg ∈ analyzeOuts d1 d2 catalog :=
      (mem_analyzeOuts d1 d2 catalog _).mpr ⟨pkg, hmem, rfl⟩
    have hres : (resolveRow d1 d2 catalog pkg).resolvedHere = false :=
      (resolveRow_empty_catalog d1 d2 catalog pkg hcat).2.2
    cases hA : (analyzeOuts d1 d2 catalog).all StepOut.resolvedHere with
    | false => rfl
    | true =>
      have := List.all_eq_true.mp hA _ ho
      rw [hres] at this
      cases this
  · intro catalog' hagree
    unfold analyzeRows analyzeOuts
    rw [List.map_map, List.map_map, List.filter_map, List.filter_map]
    have hpred : ∀ g : Catalog,
        ((fun r : Row => r.package != pkg) ∘ (StepOut.row ∘ resolveRow d1 d2 g)) =
          fun q => q != pkg := by
      intro g
      funext q
      show ((resolveRow d1 d2 g q).row.package != pkg) = (q != pkg)
      rw [resolveRow_package]
    rw [hpred catalog', hpred catalog]
    apply map_congr_mem
    intro q hq
    have hqne : q ≠ pkg := by
      have := (List.mem_filter.mp hq).2
      simpa using this
    show (StepOut.row ∘ resolveRow d1 d2 catalog') q = (StepOut.row ∘ resolveRow d1 d2 catalog) q
    exact congrArg StepOut.row (resolveRow_catalog_congr d1 d2 catalog catalog' q
      (hagree q hqne))

theorem C8_witness :
    (analyze_requirements "obscurepkg>=1.0" "requests" (fun _ => [])).allResolved = false :=
  (C8_empty_catalog_nonfatal "obscurepkg>=1.0" "requests" (fun _ => []) "obscurepkg"
    [("obscurepkg", [(Op.ge, ⟨[1, 0]⟩)])] [("requests", [])] rfl rfl (by decide) rfl).2.2.2.1
